import Mathlib

/-
Verification of the vanvleck package against its design specification.

The available sources of the repository are `vanvleck/__init__.py` (the
export list) and `test_vanvleck.py`; the module `vanvleck/core.py`, which
implements `Term`, `Terms`, `Kamiltonian`, `Generator`, `K` and `S`, is not
among them, so the recursive engine below is modelled from the design
specification (sections 3, 4, 6 and 7) and the usage visible in the test
script.  Definitions carry a doc comment naming what they model.
-/

namespace VanVleck

/-- Modelled from the spec: the four error kinds of §7 raised by the absent
`vanvleck/core.py` — `NotInitializedError` (`notInit`), `InvalidOperandError`
(`invalidOp`), `ResonanceError` (`resonance`) and `OrderGapError`
(`orderGap`). -/
inductive VVError where
  | notInit
  | invalidOp
  | resonance
  | orderGap
deriving DecidableEq, Repr

/-- Modelled from the spec: the opaque symbolic expressions produced by the
symbolic engine the absent `vanvleck/core.py` calls into.  `base j` is the
placeholder expression carried by `Term(j)`, `brk` records an algebraic
bracket, and `inv0` records the inversion of the order-0 operator performed
while a generator order is built (§4.4). -/
inductive Expr where
  | base (j : Nat)
  | brk (a b : Expr)
  | inv0 (a : Expr)
deriving DecidableEq, Repr

/-- Modelled from the spec: a `Term` of the absent `vanvleck/core.py`: a
single symbolic summand tagged with a perturbation order (§3), with an
integer coefficient so that negation and bilinear combinations are
expressible. -/
structure Term where
  order : Nat
  coeff : ℤ
  expr : Expr
deriving DecidableEq, Repr

/-- Modelled from the spec: the `Term(order)` constructor of §6 — a symbolic
placeholder term tagged with the given order. -/
def mkTerm (n : Nat) : Term := ⟨n, 1, Expr.base n⟩

/-- Modelled from the spec: a `Terms` collection of the absent
`vanvleck/core.py`: an ordered sequence of `Term` (§3). -/
structure Terms where
  terms : List Term
deriving DecidableEq, Repr

/-- Modelled from the spec: the single bracket summand of two terms; its
order is the sum of the operand orders and its coefficient the product of
the operand coefficients (§4.1). -/
def termBrk (t u : Term) : Term :=
  ⟨t.order + u.order, t.coeff * u.coeff, Expr.brk t.expr u.expr⟩

/-- Modelled from the spec: `Term.bracket` of §4.1/§6 of the absent
`vanvleck/core.py`; it returns a new `Terms` collection. -/
def Term.bracket (a b : Term) : Terms := ⟨[termBrk a b]⟩

/-- Modelled from the spec: the bracket extended bilinearly to collections
(§4.1, bilinear over addition of terms). -/
def bracketTerms (A B : Terms) : Terms :=
  ⟨A.terms.flatMap fun t => B.terms.map (termBrk t)⟩

/-- Modelled from the spec: negation of a term, as used in the antisymmetry
law `bracket(a,b) == -bracket(b,a)` of §4.1. -/
def negTerm (t : Term) : Term := ⟨t.order, -t.coeff, t.expr⟩

/-- Modelled from the spec: pointwise negation of a collection. -/
def negTerms (A : Terms) : Terms := ⟨A.terms.map negTerm⟩

/-- Modelled from the spec: the order-n part of a Hamiltonian, used for the
base cases `K(n,0)` of §4.3 and the split performed by `set_H` (§4.3). -/
def Hpart (H : Terms) (n : Nat) : Terms :=
  ⟨H.terms.filter fun t => t.order == n⟩

/-- Modelled from the spec: the rotation frequency that the order-0
inversion of §4.4 divides by.  The test script calls `Term(0)` the
non-rotating and `Term(1)` the rotating term, so `base j` rotates at
frequency `j`; frequencies add under the bracket and are kept by `inv0`. -/
def freq : Expr → Nat
  | Expr.base j => j
  | Expr.brk a b => freq a + freq b
  | Expr.inv0 a => freq a

/-- Modelled from the spec: inversion of the order-0 operator on one term
(§4.4); it fails with the resonance error on a non-rotating
(frequency-zero) term instead of dropping it. -/
def invert0 (t : Term) : Except VVError Term :=
  if freq t.expr = 0 then Except.error VVError.resonance
  else Except.ok ⟨t.order, t.coeff, Expr.inv0 t.expr⟩

/-- Modelled from the spec: order-0 inversion of a whole list of terms; the
first non-invertible term surfaces its resonance error (§4.4). -/
def invert0All : List Term → Except VVError (List Term)
  | [] => Except.ok []
  | t :: ts =>
    match invert0 t, invert0All ts with
    | Except.ok t', Except.ok ts' => Except.ok (t' :: ts')
    | Except.error e, _ => Except.error e
    | Except.ok _, Except.error e => Except.error e

/-- Modelled from the spec: the raw (not yet inverted) terms of the order
`n+1` generator: for the base case these are the order-1 Hamiltonian terms,
for higher orders the brackets of lower generators against Hamiltonian
parts (§4.4); `prev` lists the already built `S(1), …, S(n)`. -/
def SRaw (H : Terms) (prev : List Terms) (n : Nat) : List Term :=
  if n = 0 then (Hpart H 1).terms
  else (List.range n).flatMap fun i =>
    (bracketTerms (prev.getD i ⟨[]⟩) (Hpart H (n - i))).terms

/-- Modelled from the spec: the list `[S(1), …, S(n)]` of generator orders,
built recursively (§4.4); iteration over lower orders is in increasing
order as §4.3 requires determinism. -/
def Slist (H : Terms) : Nat → Except VVError (List Terms)
  | 0 => Except.ok []
  | n + 1 =>
    match Slist H n with
    | Except.error e => Except.error e
    | Except.ok prev =>
      match invert0All (SRaw H prev n) with
      | Except.error e => Except.error e
      | Except.ok inv => Except.ok (prev ++ [⟨inv⟩])

/-- Modelled from the spec: the generator `S(n)` as a pure function of the
Hamiltonian (§3 states `S(n)` is a pure function of the Hamiltonian and of
lower-index values). -/
def Spure (H : Terms) (n : Nat) : Except VVError Terms :=
  match Slist H n with
  | Except.error e => Except.error e
  | Except.ok l => Except.ok (l.getD (n - 1) ⟨[]⟩)

/-- Modelled from the spec: the sum over `k = 1..n` (iterated in increasing
order, §4.3) of the brackets of `S(k)` with the previous row's
`K(n-k, m-1)`; `Kprev` is the previous row `K(·, m-1)`. -/
def Ksum (H : Terms) (Kprev : Nat → Except VVError Terms) (n : Nat) :
    Nat → Except VVError (List Term)
  | 0 => Except.ok []
  | k + 1 =>
    match Ksum H Kprev n k, Spure H (k + 1), Kprev (n - (k + 1)) with
    | Except.ok rest, Except.ok sk, Except.ok kv =>
      Except.ok (rest ++ (bracketTerms sk kv).terms)
    | Except.error e, _, _ => Except.error e
    | Except.ok _, Except.error e, _ => Except.error e
    | Except.ok _, Except.ok _, Except.error e => Except.error e

/-- Modelled from the spec: the row `K(·, m)` of the Kamiltonian recursion:
`K(n,0)` is the order-n Hamiltonian part (base cases of §4.3), and for
`m ≥ 1` the row is assembled from brackets of `S(k)` with `K(n-k, m-1)` for
`k = 1..n` (§4.3 general case). -/
def Krow (H : Terms) : Nat → Nat → Except VVError Terms
  | 0 => fun n => Except.ok (Hpart H n)
  | m + 1 => fun n =>
    match Ksum H (Krow H m) n n with
    | Except.error e => Except.error e
    | Except.ok l => Except.ok ⟨l⟩

/-- Modelled from the spec: `K(n,m)` as a pure function of the Hamiltonian
(§3). -/
def Kpure (H : Terms) (n m : Nat) : Except VVError Terms := Krow H m n

/-- Modelled from the spec: the process-wide state of §3 — the installed
base Hamiltonian of the `Kamiltonian` registry, its `K(n,m)` memo table and
the `Generator`'s `S(n)` memo table. -/
structure VVState where
  H : Option Terms
  Kcache : Nat × Nat → Option Terms
  Scache : Nat → Option Terms

/-- Modelled from the spec: the state before any `set_H` call — no
Hamiltonian, both caches unset everywhere. -/
def initState : VVState := ⟨none, fun _ => none, fun _ => none⟩

/-- Modelled from the spec: `Kamiltonian.set_H` (§4.3/§6): it requires the
supplied collection to contain at minimum terms of order 0 and order 1
(otherwise `OrderGapError`), installs the Hamiltonian, and resets both
dependent caches. -/
def setH (Hnew : Terms) (σ : VVState) : Except VVError Unit × VVState :=
  if (Hnew.terms.any fun t => t.order == 0) &&
      (Hnew.terms.any fun t => t.order == 1) then
    (Except.ok (), ⟨some Hnew, fun _ => none, fun _ => none⟩)
  else
    (Except.error VVError.orderGap, σ)

/-- Modelled from the spec: the public entry point `K(n,m)` (§4.3): return
the cached value if present, fail with `NotInitializedError` when no
Hamiltonian is installed, otherwise compute, cache and return. -/
def Kst (σ : VVState) (n m : Nat) : Except VVError Terms × VVState :=
  match σ.Kcache (n, m) with
  | some v => (Except.ok v, σ)
  | none =>
    match σ.H with
    | none => (Except.error VVError.notInit, σ)
    | some H =>
      match Kpure H n m with
      | Except.ok v =>
        (Except.ok v,
          VVState.mk σ.H (fun p => if p = (n, m) then some v else σ.Kcache p) σ.Scache)
      | Except.error e => (Except.error e, σ)

/-- Modelled from the spec: the public entry point `S(n)` (§4.4), with the
same cache discipline as `K`. -/
def Sst (σ : VVState) (n : Nat) : Except VVError Terms × VVState :=
  match σ.Scache n with
  | some v => (Except.ok v, σ)
  | none =>
    match σ.H with
    | none => (Except.error VVError.notInit, σ)
    | some H =>
      match Spure H n with
      | Except.ok v =>
        (Except.ok v,
          VVState.mk σ.H σ.Kcache (fun p => if p = n then some v else σ.Scache p))
      | Except.error e => (Except.error e, σ)

/-- A query issued against the registry between two observations: either a
`K(n,m)` query or an `S(n)` query (a `set_H` is deliberately excluded, as
the idempotence property of the spec is about runs with no intervening
`set_H`). -/
inductive VVOp where
  | kq (n m : Nat)
  | sq (n : Nat)

/-- The state after issuing one query. -/
def applyOp (σ : VVState) : VVOp → VVState
  | VVOp.kq n m => (Kst σ n m).2
  | VVOp.sq n => (Sst σ n).2

/-- The state after issuing a sequence of queries. -/
def applyOps (σ : VVState) (L : List VVOp) : VVState := L.foldl applyOp σ

/-- A concrete 2×2 integer matrix type interpreting the opaque symbolic
algebra: a computable noncommutative ring in which the bracket can be read
as a commutator, giving the symbolic equivalence of §4.1 real content. -/
structure M where
  a : ℤ
  b : ℤ
  c : ℤ
  d : ℤ
deriving DecidableEq, Repr

/-- Matrix product on `M`. -/
def M.mul (x y : M) : M :=
  ⟨x.a * y.a + x.b * y.c, x.a * y.b + x.b * y.d,
   x.c * y.a + x.d * y.c, x.c * y.b + x.d * y.d⟩

/-- Matrix difference on `M`. -/
def M.sub (x y : M) : M := ⟨x.a - y.a, x.b - y.b, x.c - y.c, x.d - y.d⟩

/-- Integer scaling on `M`. -/
def M.smul (k : ℤ) (x : M) : M := ⟨k * x.a, k * x.b, k * x.c, k * x.d⟩

/-- Interpretation of the opaque symbolic expressions in the matrix algebra:
each base placeholder becomes a matrix depending on its index, a bracket
becomes a commutator, and the order-0 inversion acts as a (nonzero)
rescaling. -/
def sem : Expr → M
  | Expr.base j => ⟨0, (j : ℤ) + 1, 1, 0⟩
  | Expr.brk x y => M.sub (M.mul (sem x) (sem y)) (M.mul (sem y) (sem x))
  | Expr.inv0 x => M.smul 2 (sem x)

/-- Interpretation of a term: its coefficient scales the interpretation of
its expression. -/
def semT (t : Term) : M := M.smul t.coeff (sem t.expr)

/-- The observable profile of a collection: the ordered list of (order,
interpreted value) pairs of its terms. -/
def profile (A : Terms) : List (Nat × M) := A.terms.map fun t => (t.order, semT t)

/-- Symbolic equivalence of two collections: equal profiles, i.e. the same
order tags and the same interpreted values term by term. -/
def termsEquiv (A B : Terms) : Prop := profile A = profile B

/-- The `__all__` export list of `vanvleck/__init__.py` (present in the
sources). -/
def vanvleck_all : List String := ["Term", "Terms", "Kamiltonian", "Generator", "K", "S"]

/-- The minimal two-term Hamiltonian of the test script:
`Terms([Term(0), Term(1)])`. -/
def Hmin : Terms := ⟨[mkTerm 0, mkTerm 1]⟩

/-- The registry state right after `Kamiltonian.set_H(Terms([Term(0), Term(1)]))`. -/
def stMin : VVState := (setH Hmin initState).2

/-- A second Hamiltonian whose order-1 part differs from `Hmin`'s (its
order-1 term carries coefficient 2). -/
def Halt : Terms := ⟨[mkTerm 0, ⟨1, 2, Expr.base 1⟩]⟩

/-- A Hamiltonian whose order-1 part contains a non-rotating
(frequency-zero) term, a resonant configuration. -/
def Hres : Terms := ⟨[mkTerm 0, ⟨1, 1, Expr.base 0⟩]⟩

/- ------------------------------------------------------------------ -/
/- Helper lemmas shared by the claim theorems.                         -/
/- ------------------------------------------------------------------ -/

/-- A successful `set_H` leaves exactly the installed Hamiltonian and two
empty caches. -/
theorem setH_ok_state (Hn : Terms) (σ σ' : VVState)
    (h : setH Hn σ = (Except.ok (), σ')) :
    σ' = VVState.mk (some Hn) (fun _ => none) (fun _ => none) := by
  unfold setH at h
  split at h
  · have := congrArg Prod.snd h
    simpa using this.symm
  · have := congrArg Prod.fst h
    simp at this

/-- On a fresh cache with a Hamiltonian installed, `K(n,0)` returns the
order-n Hamiltonian part. -/
theorem Kst_fresh_row0 (Hn : Terms) (n : Nat) :
    (Kst (VVState.mk (some Hn) (fun _ => none) (fun _ => none)) n 0).1 =
      Except.ok (Hpart Hn n) := rfl

/-- A `K` query that answers `ok r` leaves `r` in the cache at its index. -/
theorem Kst_cached_of_ok (σ : VVState) (n m : Nat) (r : Terms)
    (h : (Kst σ n m).1 = Except.ok r) :
    ((Kst σ n m).2).Kcache (n, m) = some r := by
  cases hc : σ.Kcache (n, m) with
  | some v =>
    simp [Kst, hc] at h ⊢
    exact h
  | none =>
    cases hH : σ.H with
    | none => simp [Kst, hc, hH] at h
    | some H =>
      cases hK : Kpure H n m with
      | ok v =>
        simp [Kst, hc, hH, hK] at h ⊢
        exact h
      | error e => simp [Kst, hc, hH, hK] at h

/-- One query never erases a computed `K`-cache entry. -/
theorem applyOp_Kcache_mono (σ : VVState) (op : VVOp) (p : Nat × Nat)
    (v : Terms) (h : σ.Kcache p = some v) : (applyOp σ op).Kcache p = some v := by
  cases op with
  | kq n m =>
    show (Kst σ n m).2.Kcache p = some v
    cases hc : σ.Kcache (n, m) with
    | some w => simpa [Kst, hc] using h
    | none =>
      cases hH : σ.H with
      | none => simpa [Kst, hc, hH] using h
      | some H =>
        cases hK : Kpure H n m with
        | ok w =>
          simp [Kst, hc, hH, hK]
          by_cases hp : p = (n, m)
          · rw [hp] at h; rw [h] at hc; cases hc
          · simp [hp, h]
        | error e => simpa [Kst, hc, hH, hK] using h
  | sq j =>
    show (Sst σ j).2.Kcache p = some v
    cases hc : σ.Scache j with
    | some w => simpa [Sst, hc] using h
    | none =>
      cases hH : σ.H with
      | none => simpa [Sst, hc, hH] using h
      | some H =>
        cases hK : Spure H j with
        | ok w => simpa [Sst, hc, hH, hK] using h
        | error e => simpa [Sst, hc, hH, hK] using h

/-- A sequence of queries never erases a computed `K`-cache entry. -/
theorem applyOps_Kcache_mono (L : List VVOp) (σ : VVState) (p : Nat × Nat)
    (v : Terms) (h : σ.Kcache p = some v) : (applyOps σ L).Kcache p = some v := by
  induction L generalizing σ with
  | nil => exact h
  | cons op L ih => exact ih _ (applyOp_Kcache_mono σ op p v h)

/-- Order-0 inversion of a list surfaces a resonance error as soon as the
list contains a frequency-zero term. -/
theorem invert0All_resonance (l : List Term) (t : Term) (ht : t ∈ l)
    (hf : freq t.expr = 0) : invert0All l = Except.error VVError.resonance := by
  induction l with
  | nil => cases ht
  | cons u l ih =>
    unfold invert0All
    rcases List.mem_cons.mp ht with h | h
    · subst h
      unfold invert0
      rw [if_pos hf]
    · rw [ih h]
      cases hu : invert0 u with
      | ok u' => rfl
      | error e =>
        unfold invert0 at hu
        split at hu
        · simp at hu; simp [hu]
        · simp at hu

/-- Unfolding of the generator list at order 1: invert the order-1
Hamiltonian part. -/
theorem Slist_one (H : Terms) :
    Slist H 1 =
      match invert0All (SRaw H [] 0) with
      | Except.error e => Except.error e
      | Except.ok inv => Except.ok [⟨inv⟩] := rfl

/- ------------------------------------------------------------------ -/
/- Claim theorems.                                                     -/
/- ------------------------------------------------------------------ -/

/-- Claim C1: for every n, after `set_H` has installed a Hamiltonian,
`K(n,0)` returns exactly the order-n part of the most recently installed
Hamiltonian; in particular `K(0,0)` is the order-0 part and for n ≥ 1 it is
the order-n perturbation part. -/
theorem K_row0_matches_H (Hn : Terms) (σ σ' : VVState)
    (h : setH Hn σ = (Except.ok (), σ')) (n : Nat) :
    (Kst σ' n 0).1 = Except.ok (Hpart Hn n) := by
  rw [setH_ok_state Hn σ σ' h]
  exact Kst_fresh_row0 Hn n

/-- Witness for claim C1 at the test script's Hamiltonian: `K(1,0)` right
after `set_H(Terms([Term(0), Term(1)]))` is the order-1 part. -/
theorem K_row0_matches_H_check :
    (Kst stMin 1 0).1 = Except.ok (Hpart Hmin 1) :=
  K_row0_matches_H Hmin initState stMin rfl 1

/-- Claim C2: the bracket of two terms carries perturbation order equal to
the sum of the operands' orders. -/
theorem bracket_orders_add (a b : Term) :
    (Term.bracket a b).terms.map Term.order = [a.order + b.order] := rfl

/-- Claim C3: after installing the minimal Hamiltonian
`Terms([Term(0), Term(1)])`, `S(1)` has exactly one term and `K(1,1)` has
exactly one term. -/
theorem minimal_first_order_counts :
    Except.map (fun A => A.terms.length) (Sst stMin 1).1 = Except.ok 1 ∧
    Except.map (fun A => A.terms.length) (Kst stMin 1 1).1 = Except.ok 1 :=
  ⟨rfl, rfl⟩

/-- Claim C6: querying `K(n,m)` or `S(n)` before any `set_H` call answers
with the not-initialised error; in particular `K(1,1)` does. -/
theorem query_before_setH :
    (∀ n m, (Kst initState n m).1 = Except.error VVError.notInit) ∧
    (∀ j, (Sst initState j).1 = Except.error VVError.notInit) :=
  ⟨fun _ _ => rfl, fun _ => rfl⟩

/-- Claim C10: the package's top-level export list is exactly the six names
`Term`, `Terms`, `Kamiltonian`, `Generator`, `K` and `S`; `set_H` is not a
top-level export (it is reached through `Kamiltonian`), while the
`Kamiltonian` registry and the `Generator` cache objects are exported. -/
theorem exports_exact :
    vanvleck_all = ["Term", "Terms", "Kamiltonian", "Generator", "K", "S"] ∧
    vanvleck_all.length = 6 ∧
    "set_H" ∉ vanvleck_all ∧
    "Kamiltonian" ∈ vanvleck_all ∧
    "Generator" ∈ vanvleck_all := by
  refine ⟨rfl, rfl, ?_, ?_, ?_⟩ <;> decide

/-- Claim C4: with no intervening `set_H`, a repeated `K(n,m)` query — even
with arbitrary other `K`/`S` queries in between — returns the structurally
identical `Terms` value: the cached result is never mutated. -/
theorem K_idempotent_no_setH (σ : VVState) (n m : Nat) (r : Terms)
    (L : List VVOp) (h : (Kst σ n m).1 = Except.ok r) :
    (Kst (applyOps (Kst σ n m).2 L) n m).1 = Except.ok r := by
  have h1 : ((Kst σ n m).2).Kcache (n, m) = some r := Kst_cached_of_ok σ n m r h
  have h2 : (applyOps (Kst σ n m).2 L).Kcache (n, m) = some r :=
    applyOps_Kcache_mono L _ (n, m) r h1
  revert h2
  generalize applyOps (Kst σ n m).2 L = τ
  intro h2
  simp [Kst, h2]

/-- Witness for claim C4: `K(1,1)` on the test script's state, re-queried
after an intervening `S(2)` query, returns the same single-term value. -/
theorem K_idempotent_no_setH_check :
    (Kst (applyOps (Kst stMin 1 1).2 [VVOp.sq 2]) 1 1).1 =
      Except.ok ⟨[⟨1, 1, Expr.brk (Expr.inv0 (Expr.base 1)) (Expr.base 0)⟩]⟩ :=
  K_idempotent_no_setH stMin 1 1
    ⟨[⟨1, 1, Expr.brk (Expr.inv0 (Expr.base 1)) (Expr.base 0)⟩]⟩ [VVOp.sq 2] rfl

/-- The commutator read in the matrix algebra flips sign, in any integer
scaling, when its arguments are exchanged. -/
theorem smul_commutator_swap (c : ℤ) (X Y : M) :
    M.smul c (M.sub (M.mul X Y) (M.mul Y X)) =
      M.smul (-c) (M.sub (M.mul Y X) (M.mul X Y)) := by
  cases X
  cases Y
  simp only [M.mul, M.sub, M.smul, M.mk.injEq]
  refine ⟨by ring, by ring, by ring, by ring⟩

/-- Claim C7: the bracket is antisymmetric up to symbolic equivalence:
`bracket(a, b)` has the same profile (order tags and interpreted values) as
the negation of `bracket(b, a)`. -/
theorem bracket_antisymm (a b : Term) :
    termsEquiv (Term.bracket a b) (negTerms (Term.bracket b a)) := by
  unfold termsEquiv profile negTerms Term.bracket termBrk negTerm semT
  simp only [List.map_cons, List.map_nil, List.cons.injEq, and_true, Prod.mk.injEq]
  refine ⟨Nat.add_comm _ _, ?_⟩
  show M.smul (a.coeff * b.coeff) (sem (Expr.brk a.expr b.expr)) =
    M.smul (-(b.coeff * a.coeff)) (sem (Expr.brk b.expr a.expr))
  rw [mul_comm b.coeff a.coeff]
  exact smul_commutator_swap _ _ _

/-- Claim C5: cache entries move only from unset to computed under `K`/`S`
queries, which touch nothing else of the state; the sole backward
transition is the full reset a successful `set_H` performs; and after such
a reset the values are recomputed from the newly installed Hamiltonian, so
they differ from stale values wherever the two Hamiltonians differ. -/
theorem cache_state_machine :
    (∀ σ n m p, ((Kst σ n m).2).Kcache p = σ.Kcache p ∨ σ.Kcache p = none) ∧
    (∀ σ j p, ((Sst σ j).2).Scache p = σ.Scache p ∨ σ.Scache p = none) ∧
    (∀ σ n m, ((Kst σ n m).2).Scache = σ.Scache ∧ ((Kst σ n m).2).H = σ.H) ∧
    (∀ σ j, ((Sst σ j).2).Kcache = σ.Kcache ∧ ((Sst σ j).2).H = σ.H) ∧
    (∀ Hn σ σ', setH Hn σ = (Except.ok (), σ') →
      σ' = VVState.mk (some Hn) (fun _ => none) (fun _ => none)) ∧
    (∀ H1 H2 σ σ' n, setH H2 σ = (Except.ok (), σ') → Hpart H1 n ≠ Hpart H2 n →
      (Kst σ' n 0).1 = Except.ok (Hpart H2 n) ∧
      (Kst σ' n 0).1 ≠ Except.ok (Hpart H1 n)) := by
  refine ⟨?_, ?_, ?_, ?_, setH_ok_state, ?_⟩
  · intro σ n m p
    cases hc : σ.Kcache (n, m) with
    | some v => simp [Kst, hc]
    | none =>
      cases hH : σ.H with
      | none => simp [Kst, hc, hH]
      | some H =>
        cases hK : Kpure H n m with
        | ok v =>
          simp [Kst, hc, hH, hK]
          by_cases hp : p = (n, m)
          · rw [hp]; exact Or.inr hc
          · simp [hp]
        | error e => simp [Kst, hc, hH, hK]
  · intro σ j p
    cases hc : σ.Scache j with
    | some v => simp [Sst, hc]
    | none =>
      cases hH : σ.H with
      | none => simp [Sst, hc, hH]
      | some H =>
        cases hK : Spure H j with
        | ok v =>
          simp [Sst, hc, hH, hK]
          by_cases hp : p = j
          · rw [hp]; exact Or.inr hc
          · simp [hp]
        | error e => simp [Sst, hc, hH, hK]
  · intro σ n m
    cases hc : σ.Kcache (n, m) with
    | some v => simp [Kst, hc]
    | none =>
      cases hH : σ.H with
      | none => simp [Kst, hc, hH]
      | some H =>
        cases hK : Kpure H n m with
        | ok v => simp [Kst, hc, hH, hK]
        | error e => simp [Kst, hc, hH, hK]
  · intro σ j
    cases hc : σ.Scache j with
    | some v => simp [Sst, hc]
    | none =>
      cases hH : σ.H with
      | none => simp [Sst, hc, hH]
      | some H =>
        cases hK : Spure H j with
        | ok v => simp [Sst, hc, hH, hK]
        | error e => simp [Sst, hc, hH, hK]
  · intro H1 H2 σ σ' n h hne
    rw [setH_ok_state H2 σ σ' h]
    refine ⟨Kst_fresh_row0 H2 n, ?_⟩
    rw [Kst_fresh_row0 H2 n]
    simp only [ne_eq, Except.ok.injEq]
    exact fun heq => hne heq.symm

/-- Witness for claim C5: installing `Halt` (whose order-1 part differs
from `Hmin`'s) makes `K(1,0)` diverge from the stale value computed under
`Hmin`. -/
theorem cache_state_machine_check :
    (Kst ((setH Halt initState).2) 1 0).1 = Except.ok (Hpart Halt 1) ∧
    (Kst ((setH Halt initState).2) 1 0).1 ≠ Except.ok (Hpart Hmin 1) :=
  cache_state_machine.2.2.2.2.2 Hmin Halt initState ((setH Halt initState).2) 1
    rfl (by decide)

/-- Claim C8: if the order-1 Hamiltonian part contains a non-invertible
(frequency-zero) term, building `S(1)` surfaces the resonance error to the
caller instead of silently dropping the term. -/
theorem resonance_surfaces (Hn : Terms) (σ σ' : VVState)
    (h : setH Hn σ = (Except.ok (), σ')) (t : Term)
    (ht : t ∈ (Hpart Hn 1).terms) (hf : freq t.expr = 0) :
    (Sst σ' 1).1 = Except.error VVError.resonance := by
  rw [setH_ok_state Hn σ σ' h]
  have hraw : SRaw Hn [] 0 = (Hpart Hn 1).terms := by simp [SRaw]
  have hres : invert0All (SRaw Hn [] 0) = Except.error VVError.resonance := by
    rw [hraw]
    exact invert0All_resonance _ t ht hf
  have hs : Spure Hn 1 = Except.error VVError.resonance := by
    unfold Spure
    rw [Slist_one, hres]
  simp [Sst, hs]

/-- Witness for claim C8: a Hamiltonian whose order-1 term is non-rotating
makes `S(1)` answer with the resonance error. -/
theorem resonance_surfaces_check :
    (Sst ((setH Hres initState).2) 1).1 = Except.error VVError.resonance :=
  resonance_surfaces Hres initState _ rfl ⟨1, 1, Expr.base 0⟩ (by decide) rfl

/-- Claim C9: `set_H` succeeds exactly when the supplied collection has
both an order-0 and an order-1 term, and on a gap it fails with the
order-gap error. -/
theorem setH_requires_base_orders (Hn : Terms) (σ : VVState) :
    ((setH Hn σ).1 = Except.ok () ↔
      (∃ t ∈ Hn.terms, t.order = 0) ∧ (∃ t ∈ Hn.terms, t.order = 1)) ∧
    ((setH Hn σ).1 = Except.ok () ∨
      (setH Hn σ).1 = Except.error VVError.orderGap) := by
  unfold setH
  by_cases hc : ((Hn.terms.any fun t => t.order == 0) &&
      (Hn.terms.any fun t => t.order == 1)) = true
  · rw [if_pos hc]
    simp only [Bool.and_eq_true, List.any_eq_true, beq_iff_eq] at hc
    exact ⟨iff_of_true rfl hc, Or.inl rfl⟩
  · rw [if_neg hc]
    simp only [Bool.and_eq_true, List.any_eq_true, beq_iff_eq] at hc
    exact ⟨iff_of_false (by simp) hc, Or.inr rfl⟩

/-- Witness for claim C9: `set_H(Terms([Term(0)]))`, which misses the
order-1 base order, fails with the order-gap error. -/
theorem setH_requires_base_orders_check :
    (setH (Terms.mk [mkTerm 0]) initState).1 = Except.error VVError.orderGap := by
  rcases (setH_requires_base_orders (Terms.mk [mkTerm 0]) initState).2 with hok | hgap
  · exact absurd ((setH_requires_base_orders (Terms.mk [mkTerm 0]) initState).1.mp hok)
      (by decide)
  · exact hgap

end VanVleck
